import Mathlib

/-!
Formal model of `jargon_shredder.py`.

Conventions of the embedding:

* Python strings are modelled as `List Nat` of Unicode codepoints; the helper
  `lit` converts a Lean string literal to that representation.
* Each entry of the Python `BUZZMAP` is a regex of the shape
  `\b<literal with at most one optional/alternated piece>\b` compiled with
  `re.IGNORECASE`.  Every such pattern is expanded into its finite list of
  literal alternatives, listed in the backtracking preference order of the
  Python `re` engine (greedy option first, alternation left to right).  All
  alternatives start and end with a word character, so the `\b` anchors are
  exactly "previous char is not a word char" and "next char is not a word
  char".  `re.sub` scans left to right over the fixed input of that call and
  continues after each (non-overlapping) match; `subLoopF` mirrors that scan.
* Word characters follow the Python `\w` class restricted to ASCII
  (`[A-Za-z0-9_]`), and whitespace follows `\s` restricted to ASCII
  (space, `\t`, `\n`, `\r`, `\x0b`, `\x0c`); all strings occurring in the
  tables of the repository are ASCII, where the restriction is exact.
* Recursion is fuel-based (fuel = enough steps for the input length) so that
  every definition reduces in the kernel.
-/

set_option maxRecDepth 8000

def lit (s : String) : List Nat := s.data.map Char.toNat

/-- Python `re.IGNORECASE` folding, restricted to ASCII: uppercase letters map
to lowercase, everything else is fixed. -/
def lowerN (n : Nat) : Nat := if 65 ≤ n ∧ n ≤ 90 then n + 32 else n

/-- Python `\w` (ASCII): `[A-Za-z0-9_]`. -/
def isWordN (n : Nat) : Bool :=
  decide ((48 ≤ n ∧ n ≤ 57) ∨ (65 ≤ n ∧ n ≤ 90) ∨ (97 ≤ n ∧ n ≤ 122) ∨ n = 95)

/-- Python `\s` (ASCII): space, tab, newline, carriage return, vertical tab,
form feed.  This is also the ASCII part of the set stripped by `str.strip()`. -/
def isSpaceN (n : Nat) : Bool :=
  decide (n = 32 ∨ n = 9 ∨ n = 10 ∨ n = 13 ∨ n = 11 ∨ n = 12)

/-- Case-insensitive literal match: `alt` is stored lowercase; on success
returns the remaining input after the literal. -/
def matchLitCI : List Nat → List Nat → Option (List Nat)
  | [], s => some s
  | _ :: _, [] => none
  | a :: as, c :: cs => if lowerN c = a then matchLitCI as cs else none

/-- True when the trailing `\b` of a pattern holds at this point of the
input: end of string, or a non-word character next. -/
def nonWordStart : List Nat → Bool
  | [] => true
  | c :: _ => !(isWordN c)

/-- Try the alternatives of one pattern at the current position, in the
backtracking preference order of `re`; an alternative succeeds only if the
trailing word boundary holds after it. -/
def tryAlts : List (List Nat) → List Nat → Option (List Nat)
  | [], _ => none
  | a :: rest, s =>
    match matchLitCI a s with
    | some r => if nonWordStart r then some r else tryAlts rest s
    | none => tryAlts rest s

/-- The scan of `re.sub(pat, repl, out, flags=re.IGNORECASE)` for one
word-boundary pattern: `prev` records whether the previous character of the
input was a word character (so the leading `\b` holds exactly when `prev` is
false).  Matches are non-overlapping; the scan resumes after each match, and
every alternative ends in a word character, so `prev` becomes true there. -/
def subLoopF (alts : List (List Nat)) (repl : List Nat) :
    Nat → Bool → List Nat → List Nat
  | 0, _, s => s
  | _ + 1, _, [] => []
  | fuel + 1, true, c :: cs => c :: subLoopF alts repl fuel (isWordN c) cs
  | fuel + 1, false, c :: cs =>
    match tryAlts alts (c :: cs) with
    | some rest => repl ++ subLoopF alts repl fuel true rest
    | none => c :: subLoopF alts repl fuel (isWordN c) cs

/-- Does the pattern match anywhere in the input (i.e. would `re.sub`
replace something)?  Mirrors the scan of `subLoopF`. -/
def hasMatch (alts : List (List Nat)) : Bool → List Nat → Bool
  | _, [] => false
  | true, c :: cs => hasMatch alts (isWordN c) cs
  | false, c :: cs =>
    match tryAlts alts (c :: cs) with
    | some _ => true
    | none => hasMatch alts (isWordN c) cs

/-- One pass of `re.sub(r"\s{2,}", " ", out)`: every maximal run of two or
more whitespace characters becomes a single space; an isolated whitespace
character is left as it is. -/
def collapseF : Nat → List Nat → List Nat
  | 0, s => s
  | _ + 1, [] => []
  | _ + 1, [c] => [c]
  | fuel + 1, c :: d :: rest =>
    if isSpaceN c && isSpaceN d then
      32 :: collapseF fuel (rest.dropWhile isSpaceN)
    else
      c :: collapseF fuel (d :: rest)

def collapseWS (s : List Nat) : List Nat := collapseF s.length s

/-- Python `str.strip()` (ASCII whitespace). -/
def stripChars (s : List Nat) : List Nat :=
  ((s.dropWhile isSpaceN).reverse.dropWhile isSpaceN).reverse

/-- The `BUZZMAP` table of `jargon_shredder.py`, in definition order.  Each
pattern is expanded into its lowercase literal alternatives (see the header
comment); the replacement string is kept verbatim. -/
def BUZZMAP : List (List (List Nat) × List Nat) := [
  ([lit ("federated")], lit ("spread across different places")),
  ([lit ("embeddings"), lit ("embedding")], lit ("a way to compare meaning in text")),
  ([lit ("latency")], lit ("delay")),
  ([lit ("throughput")], lit ("how much it can handle")),
  ([lit ("scalable")], lit ("can grow without breaking")),
  ([lit ("robust")], lit ("hard to break")),
  ([lit ("resilient")], lit ("recovers from problems")),
  ([lit ("seamless")], lit ("smooth")),
  ([lit ("actionable")], lit ("useful and ready to use")),
  ([lit ("intelligence")], lit ("information")),
  ([lit ("data enrichment")], lit ("adding extra info to data")),
  ([lit ("disruption"), lit ("disruptive")], lit ("a big change in how things are done")),
  ([lit ("paradigm")], lit ("approach")),
  ([lit ("leverage")], lit ("use")),
  ([lit ("at scale")], lit ("for lots of users")),
  ([lit ("ai-powered"), lit ("ai powered")], lit ("uses AI")),
  ([lit ("generative ai")], lit ("an AI that writes or makes things")),
  ([lit ("large language models"), lit ("large language model")], lit ("a text AI")),
  ([lit ("microservices"), lit ("microservice")], lit ("many small services")),
  ([lit ("serverless")], lit ("you don\u0027t manage the servers")),
  ([lit ("edge computing")], lit ("processing on the device")),
  ([lit ("observability")], lit ("seeing what the system is doing")),
  ([lit ("zero-trust"), lit ("zero trust")], lit ("always verify")),
  ([lit ("blockchain")], lit ("a shared ledger")),
  ([lit ("smart contracts"), lit ("smart contract")], lit ("programs on a blockchain")),
  ([lit ("vector database")], lit ("a database for comparing meanings")),
  ([lit ("multi-tenant"), lit ("multi tenant")], lit ("many customers on one system")),
  ([lit ("etl")], lit ("extract, transform, load data")),
  ([lit ("rtos")], lit ("a real-time operating system")),
  ([lit ("hil")], lit ("hardware-in-the-loop testing")),
  ([lit ("devops")], lit ("dev + ops practices")),
  ([lit ("sre")], lit ("site reliability engineering")),
  ([lit ("sdk")], lit ("software toolkit")),
  ([lit ("kpis"), lit ("kpi")], lit ("key metrics")),
  ([lit ("okrs"), lit ("okr")], lit ("goals and results")),
  ([lit ("iot")], lit ("internet-connected devices")),
  ([lit ("mqtt")], lit ("a pub-sub message protocol")),
  ([lit ("llms"), lit ("llm")], lit ("text AI models")),
  ([lit ("knowledge graph")], lit ("a map of linked facts")),
  ([lit ("data lake")], lit ("a big raw data pool")),
  ([lit ("time-to-value"), lit ("time-to value"), lit ("time to-value"), lit ("time to value")], lit ("how fast it helps you")),
  ([lit ("incrementally"), lit ("incremental")], lit ("step by step")),
  ([lit ("greenfield")], lit ("built from scratch")),
  ([lit ("brownfield")], lit ("built on existing systems"))]

/-- One iteration of the loop body `out = re.sub(pat, repl, out, ...)`. -/
def applyRule (t : List Nat) (r : List (List Nat) × List Nat) : List Nat :=
  subLoopF r.1 r.2 t.length false t

/-- Model of `buzz_sweep` (lines 61-66): fold the rules over the text in table order,
then collapse whitespace runs and strip. -/
def buzz_sweep (text : List Nat) : List Nat :=
  stripChars (collapseWS (BUZZMAP.foldl applyRule text))

/-- First rule of the table (in order) matching at the current position, with
its replacement — the "match every pattern against the original input"
reading of the spec. -/
def tryRules : List (List (List Nat) × List Nat) → List Nat → Option (List Nat × List Nat)
  | [], _ => none
  | r :: rs, s =>
    match tryAlts r.1 s with
    | some rest => some (r.2, rest)
    | none => tryRules rs s

/-- Modelled from the words of the spec in C2 ("matching every pattern against the
original input"): a single left-to-right scan of the original text in which
every rule is tried, in table order, at each position; replacement text is
never rescanned. -/
def snapshotLoopF : Nat → Bool → List Nat → List Nat
  | 0, _, s => s
  | _ + 1, _, [] => []
  | fuel + 1, true, c :: cs => c :: snapshotLoopF fuel (isWordN c) cs
  | fuel + 1, false, c :: cs =>
    match tryRules BUZZMAP (c :: cs) with
    | some (repl, rest) => repl ++ snapshotLoopF fuel true rest
    | none => c :: snapshotLoopF fuel (isWordN c) cs

/-- Sweep under the snapshot semantics of the spec, followed by the same
whitespace normalization as `buzz_sweep`. -/
def snapshotSweep (text : List Nat) : List Nat :=
  stripChars (collapseWS (snapshotLoopF text.length false text))

/-- The scenario input of the spec (section 8) and of claim C1. -/
def c1Input : List Nat :=
  lit ("Our platform leverages federated embeddings for seamless, scalable AI-powered intelligence at scale.")

/-- The sentence claim C1 predicts: every mapped term replaced, in particular
"leverages" turned into "use". -/
def c1Claimed : List Nat :=
  lit ("Our platform use spread across different places a way to compare meaning in text for smooth, can grow without breaking uses AI information for lots of users.")

/-- What `buzz_sweep` actually produces on the scenario input: identical to
`c1Claimed` except that "leverages" is left in place, because the pattern
is `\bleverage\b` without an optional plural and the trailing `\b` fails
between "leverage" and "s". -/
def c1Actual : List Nat :=
  lit ("Our platform leverages spread across different places a way to compare meaning in text for smooth, can grow without breaking uses AI information for lots of users.")

/-- Does `t` contain `sub` as a contiguous substring? -/
def listStartsWith : List Nat → List Nat → Bool
  | [], _ => true
  | _ :: _, [] => false
  | a :: as, b :: bs => a == b && listStartsWith as bs

def containsSub (sub : List Nat) : List Nat → Bool
  | [] => listStartsWith sub []
  | c :: cs => listStartsWith sub (c :: cs) || containsSub sub cs

/-!
JSON values and a model of `json.loads`.

The parser covers the fragment of JSON produced and consumed in this
repository: `null`, booleans, integers (no fractions or exponents), strings
with the single-character escapes (`\" \\ \/ \b \f \n \r \t`; `\uXXXX` is
not modelled), arrays and objects.  Like `json.loads` it skips JSON
whitespace, rejects trailing data, rejects raw control characters inside
strings and rejects leading zeros.  Objects follow Python `dict` semantics:
a duplicate key keeps its first position and its last value.
-/

inductive Jval where
  | jnull : Jval
  | jbool : Bool → Jval
  | jnum : Int → Jval
  | jstr : List Nat → Jval
  | jarr : List Jval → Jval
  | jobj : List (List Nat × Jval) → Jval

def containsKey (d : List (List Nat × Jval)) (k : List Nat) : Bool :=
  d.any (fun p => p.1 == k)

/-- Python `dict.get`. -/
def aget (d : List (List Nat × Jval)) (k : List Nat) : Option Jval :=
  (d.find? (fun p => p.1 == k)).map Prod.snd

/-- Python `dict` item assignment: replace in place, else append. -/
def dictInsert (d : List (List Nat × Jval)) (k : List Nat) (v : Jval) :
    List (List Nat × Jval) :=
  if containsKey d k then d.map (fun p => if p.1 == k then (p.1, v) else p)
  else d ++ [(k, v)]

/-- Python `dict.setdefault`. -/
def setdefault (d : List (List Nat × Jval)) (k : List Nat) (v : Jval) :
    List (List Nat × Jval) :=
  if containsKey d k then d else d ++ [(k, v)]

/-- JSON whitespace accepted by `json.loads` between tokens. -/
def jsonWs (n : Nat) : Bool := decide (n = 32 ∨ n = 9 ∨ n = 10 ∨ n = 13)

def skipWs (s : List Nat) : List Nat := s.dropWhile jsonWs

def unescape (e : Nat) : Option Nat :=
  if e = 34 then some 34 else if e = 92 then some 92 else if e = 47 then some 47
  else if e = 98 then some 8 else if e = 102 then some 12 else if e = 110 then some 10
  else if e = 114 then some 13 else if e = 116 then some 9 else none

/-- Body of a JSON string after the opening quote; returns the decoded
content and the input after the closing quote. -/
def parseStrBody : List Nat → Option (List Nat × List Nat)
  | [] => none
  | 34 :: rest => some ([], rest)
  | 92 :: e :: rest2 =>
    match unescape e with
    | some d =>
      match parseStrBody rest2 with
      | some (b, r) => some (d :: b, r)
      | none => none
    | none => none
  | [92] => none
  | c :: rest =>
    if c < 32 then none
    else
      match parseStrBody rest with
      | some (b, r) => some (c :: b, r)
      | none => none

def isDigitN (n : Nat) : Bool := decide (48 ≤ n ∧ n ≤ 57)

def digitsVal (ds : List Nat) : Nat := ds.foldl (fun a d => a * 10 + (d - 48)) 0

/-- JSON integer literal (strict grammar, fractions/exponents unmodelled). -/
def parseNum (s : List Nat) : Option (Jval × List Nat) :=
  let p := match s with
           | 45 :: r => (true, r)
           | _ => (false, s)
  let ds := p.2.takeWhile isDigitN
  let rest := p.2.dropWhile isDigitN
  if ds.isEmpty then none
  else if 1 < ds.length ∧ ds.headI = 48 then none
  else
    match rest with
    | 46 :: _ => none
    | 101 :: _ => none
    | 69 :: _ => none
    | _ => some (.jnum (if p.1 then -(digitsVal ds : Int) else (digitsVal ds : Int)), rest)

def dropLit : List Nat → List Nat → Option (List Nat)
  | [], s => some s
  | _ :: _, [] => none
  | a :: as, c :: cs => if c = a then dropLit as cs else none

/-- The comma-separated members of a JSON array, up to and including the
closing bracket; `pv` parses one value. -/
def parseElemsWith (pv : List Nat → Option (Jval × List Nat)) :
    Nat → List Nat → Option (List Jval × List Nat)
  | 0, _ => none
  | fuel + 1, s =>
    match pv s with
    | none => none
    | some (v, r) =>
      match skipWs r with
      | 44 :: r2 =>
        match parseElemsWith pv fuel r2 with
        | some (vs, r3) => some (v :: vs, r3)
        | none => none
      | 93 :: r2 => some ([v], r2)
      | _ => none

/-- The comma-separated pairs of a JSON object, up to and including the
closing brace. -/
def parseMembersWith (pv : List Nat → Option (Jval × List Nat)) :
    Nat → List Nat → Option (List (List Nat × Jval) × List Nat)
  | 0, _ => none
  | fuel + 1, s =>
    match skipWs s with
    | 34 :: rest =>
      match parseStrBody rest with
      | none => none
      | some (k, r) =>
        match skipWs r with
        | 58 :: r2 =>
          match pv r2 with
          | none => none
          | some (v, r3) =>
            match skipWs r3 with
            | 44 :: r5 =>
              match parseMembersWith pv fuel r5 with
              | some (ps, r6) => some ((k, v) :: ps, r6)
              | none => none
            | 125 :: r5 => some ([(k, v)], r5)
            | _ => none
        | _ => none
    | _ => none

def parseVal : Nat → List Nat → Option (Jval × List Nat)
  | 0, _ => none
  | fuel + 1, s =>
    match skipWs s with
    | [] => none
    | 34 :: rest =>
      match parseStrBody rest with
      | some (b, r) => some (.jstr b, r)
      | none => none
    | 91 :: rest =>
      match skipWs rest with
      | 93 :: r2 => some (.jarr [], r2)
      | r1 =>
        match parseElemsWith (fun t => parseVal fuel t) fuel r1 with
        | some (xs, r2) => some (.jarr xs, r2)
        | none => none
    | 123 :: rest =>
      match skipWs rest with
      | 125 :: r2 => some (.jobj [], r2)
      | r1 =>
        match parseMembersWith (fun t => parseVal fuel t) fuel r1 with
        | some (ps, r2) => some (.jobj (ps.foldl (fun d p => dictInsert d p.1 p.2) []), r2)
        | none => none
    | s1 =>
      match dropLit (lit ("null")) s1 with
      | some r => some (.jnull, r)
      | none =>
        match dropLit (lit ("true")) s1 with
        | some r => some (.jbool true, r)
        | none =>
          match dropLit (lit ("false")) s1 with
          | some r => some (.jbool false, r)
          | none => parseNum s1

/-- Model of `json.loads`: parse one value, reject trailing data. -/
def jsonLoads (raw : List Nat) : Option Jval :=
  match parseVal (2 * raw.length + 4) raw with
  | some (j, rest) => if skipWs rest = [] then some j else none
  | none => none

/-!
The HTTP call and the two model-facing stages.

The external service is abstracted as the outcome of `requests.post`: either
a `requests.RequestException` (connection refused, timeout, ...) or a
response with a status code and a raw body.  Python exceptions are split
into the two classes the code distinguishes: `PyErr.requestErr` for
`requests.exceptions.RequestException` (which the code catches) and
`PyErr.otherErr` for every other exception (`ValueError` from `r.json()`,
`AttributeError` from `.get`/`.strip` on a wrongly-typed value), which the
code does not catch.  An `Except.error` escaping a modelled function means
the Python function raises.
-/

inductive HttpResult where
  | exn : HttpResult
  | resp : Nat → List Nat → HttpResult

inductive PyErr where
  | requestErr : PyErr
  | otherErr : PyErr
deriving DecidableEq

/-- Model of `data.get("response", "").strip()` on line 78: absent field defaults to
the empty string; a non-string value makes `.strip()` raise an
`AttributeError`. -/
def respValue (d : List (List Nat × Jval)) : Except PyErr (List Nat) :=
  match aget d (lit ("response")) with
  | none => .ok []
  | some (.jstr v) => .ok (stripChars v)
  | some _ => .error .otherErr

/-- Model of `r.json()` followed by the field access (lines 77-78): a body that is not
valid JSON raises a `ValueError`, a non-object raises an `AttributeError`
at `.get`; neither is a `RequestException`. -/
def parseBody (body : List Nat) : Except PyErr (List Nat) :=
  match jsonLoads body with
  | none => .error .otherErr
  | some (.jobj d) => respValue d
  | some _ => .error .otherErr

/-- Model of `call_ollama` (lines 68-78): the POST may raise a `RequestException`;
`raise_for_status` raises `HTTPError` (a `RequestException`) exactly for
status codes 400-599; then the body is consumed by `parseBody`/`respValue`. -/
def call_ollama : HttpResult → Except PyErr (List Nat)
  | .exn => .error .requestErr
  | .resp status body =>
    if 400 ≤ status ∧ status < 600 then .error .requestErr
    else parseBody body

/-- The six fact keys, in the order of the loop on line 101. -/
def sixKeys : List (List Nat) :=
  [lit ("numbers"), lit ("dates"), lit ("names"), lit ("protocols"),
   lit ("claims"), lit ("constraints")]

/-- The all-empty record returned on line 105. -/
def defaultFacts : List (List Nat × Jval) := sixKeys.map (fun k => (k, .jarr []))

def rfindIdx (raw : List Nat) (c : Nat) : Option Nat :=
  match raw.reverse.findIdx? (· == c) with
  | some i => some (raw.length - 1 - i)
  | none => none

/-- Lines 96-99: `raw[start:end+1]` between the first brace and the last
closing brace when both exist, otherwise the raw text unchanged. -/
def braceSlice (raw : List Nat) : List Nat :=
  match raw.findIdx? (· == 123), rfindIdx raw 125 with
  | some s, some e => (raw.take (e + 1)).drop s
  | _, _ => raw

/-- Model of `extract_facts` (lines 80-105): call the model, slice to the braces,
`json.loads`, then `setdefault` each of the six keys to `[]`.  Any exception
in that block — the call raising, the parse failing, or `setdefault` on a
non-dict — is caught and the all-empty record returned. -/
def extract_facts (h : HttpResult) : List (List Nat × Jval) :=
  match call_ollama h with
  | .error _ => defaultFacts
  | .ok raw =>
    match jsonLoads (braceSlice raw) with
    | some (.jobj d) => sixKeys.foldl (fun acc k => setdefault acc k (.jarr [])) d
    | _ => defaultFacts

/-- Lines 184-190 of `main`: the rewrite call in a `try` that catches only
`requests.exceptions.RequestException`; on that failure a diagnostic line is
written to stderr (the `Bool` of the result) and the preclean text is used
as the output.  Any other exception propagates and kills the process. -/
def rewriteStage (preclean : List Nat) (h : HttpResult) :
    Except PyErr (List Nat × Bool) :=
  match call_ollama h with
  | .ok out => .ok (out, false)
  | .error .requestErr => .ok (preclean, true)
  | .error .otherErr => .error .otherErr

/-- The output-relevant tail of the pipeline for a given original text and
rewrite-call outcome: sweep, rewrite with fallback, print.  (The facts pass
and the prompt feed only the request sent to the model, which is already
arbitrary in `h`; `extract_facts` and `build_prompt` are total, so they
cannot abort the pipeline — see `C4_thm` and the definitions below.)
`Except.ok out` models "the process prints `out` and exits successfully";
`Except.error _` models an uncaught exception (stack trace, nonzero exit). -/
def pipelineRun (original : List Nat) (h : HttpResult) : Except PyErr (List Nat) :=
  match rewriteStage (buzz_sweep original) h with
  | .ok (out, _) => .ok out
  | .error e => .error e

/-!
The keep-list, `json.dumps`, `textwrap.dedent` and `build_prompt`.
-/

/-- Python `text.split(sep)` for a one-character separator: `n` separators
yield `n+1` segments, empties kept. -/
def splitByte (sep : Nat) : List Nat → List (List Nat)
  | [] => [[]]
  | c :: rest =>
    match splitByte sep rest with
    | [] => [[c]]
    | g :: gs => if c = sep then [] :: g :: gs else (c :: g) :: gs

/-- Line 181 of `main`:
`[t.strip() for t in args.keep.split(",") if t.strip()]`. -/
def parseKeep (opt : List Nat) : List (List Nat) :=
  ((splitByte 44 opt).map stripChars).filter (fun t => !t.isEmpty)

/-- Line 111 of `build_prompt`:
`", ".join(keep_terms) if keep_terms else "none"`. -/
def keepStr (ts : List (List Nat)) : List Nat :=
  if ts.isEmpty then lit ("none") else List.intercalate (lit (", ")) ts

/-- Decimal representation of a natural number (Python `str` on `int`,
nonnegative case). -/
def natRepr (n : Nat) : List Nat := (Nat.toDigits 10 n).map Char.toNat

def intRepr (i : Int) : List Nat :=
  if i < 0 then 45 :: natRepr i.natAbs else natRepr i.natAbs

/-- Escaping of `json.dumps` for the characters that occur in this development
(`ensure_ascii=False`; `\uXXXX` escapes of other control characters are not
modelled). -/
def escapeCh (c : Nat) : List Nat :=
  if c = 34 then [92, 34] else if c = 92 then [92, 92]
  else if c = 10 then [92, 110] else if c = 13 then [92, 114]
  else if c = 9 then [92, 116] else [c]

def escapeStr (s : List Nat) : List Nat := s.flatMap escapeCh

/-- Model of `json.dumps` with its default separators. -/
def jdumpsF : Nat → Jval → List Nat
  | _, .jnull => lit ("null")
  | _, .jbool true => lit ("true")
  | _, .jbool false => lit ("false")
  | _, .jnum i => intRepr i
  | _, .jstr s => 34 :: escapeStr s ++ [34]
  | 0, .jarr _ => []
  | fuel + 1, .jarr xs =>
    91 :: List.intercalate (lit (", ")) (xs.map (jdumpsF fuel)) ++ [93]
  | 0, .jobj _ => []
  | fuel + 1, .jobj d =>
    123 :: List.intercalate (lit (", "))
      (d.map (fun p => 34 :: escapeStr p.1 ++ [34] ++ lit (": ") ++ jdumpsF fuel p.2)) ++ [125]

/-- The fuel only limits container nesting; 1000 mirrors the recursion limit of Python itself, far above anything in this development. -/
def jdumps (j : Jval) : List Nat := jdumpsF 1000 j

def indentWs (c : Nat) : Bool := c == 32 || c == 9

/-- Model of `textwrap.dedent`: lines of only spaces/tabs are emptied; the margin is
the longest common leading whitespace of the remaining nonempty lines; the
margin is removed from the front of every line that starts with it. -/
def commonPfx : List Nat → List Nat → List Nat
  | [], _ => []
  | _ :: _, [] => []
  | a :: as, b :: bs => if a = b then a :: commonPfx as bs else []

def dedent (t : List Nat) : List Nat :=
  let lines := (splitByte 10 t).map (fun l => if !l.isEmpty && l.all indentWs then [] else l)
  let indents := lines.filterMap
    (fun l => if l.isEmpty then none else some (l.takeWhile indentWs))
  let margin := match indents with
                | [] => []
                | i :: is => is.foldl commonPfx i
  List.intercalate [10]
    (lines.map (fun l => if listStartsWith margin l then l.drop margin.length else l))

inductive Style where
  | plain : Style
  | peasant : Style
  | grandma : Style
  | exec : Style

/-- The `STYLE_PROMPTS` table (lines 54-59); `main` restricts `--style` to
exactly these four keys, so the lookup on line 108 cannot fail. -/
def STYLE_PROMPTS : Style → List Nat
  | .plain => lit ("Rewrite in clear, plain English for a general audience. No jargon. Keep it brief but accurate.")
  | .peasant => lit ("Rewrite like you\u2019re explaining to a medieval peasant, playful but still accurate. Short, simple sentences.")
  | .grandma => lit ("Rewrite in warm, simple language as if explaining to a grandparent. No buzzwords. Friendly and clear.")
  | .exec => lit ("Rewrite as crisp executive summary bullets. No fluff, no jargon, focus on outcome and why it matters.")

inductive Mode where
  | faithful : Mode
  | summary : Mode

/-- The `policy` f-string of `build_prompt` (lines 113-129), with `{maxlen}`
and `{keep_str}` interpolated. -/
def policyStr (mode : Mode) (maxlen : Nat) (keep_str : List Nat) : List Nat :=
  match mode with
  | .faithful =>
    lit ("\n        - This is a faithful simplification: DO NOT drop facts.\n        - You MUST preserve every number, date, proper noun, standard, protocol, and constraint shown in FACTS.\n        - If a fact is unclear, include it verbatim rather than omitting.\n        - Prefer short sentences. Avoid buzzwords.\n        - Target max length ~")
      ++ natRepr maxlen
      ++ lit (" words while preserving all facts.\n        - Explicitly include these terms if present in the original: ")
      ++ keep_str ++ lit (".\n        ")
  | .summary =>
    lit ("\n        - This is a concise summary for non-experts.\n        - Prioritize outcomes and what it does for the user.\n        - Keep critical numbers/dates/constraints from FACTS.\n        - Target max length ~")
      ++ natRepr maxlen
      ++ lit (" words.\n        - Explicitly include these terms if present in the original: ")
      ++ keep_str ++ lit (".\n        ")

/-- Model of `build_prompt` (lines 107-147): the outer f-string template, dedented
and stripped.  (`keep_terms or []` only matters for the `None` default,
which `main` never passes.) -/
def build_prompt (style : Style) (original preclean : List Nat)
    (facts : List (List Nat × Jval)) (maxlen : Nat)
    (keep_terms : List (List Nat)) (mode : Mode) : List Nat :=
  let instruct := STYLE_PROMPTS style
  let fact_str := jdumps (.jobj facts)
  let keep_str := keepStr keep_terms
  let policy := policyStr mode maxlen keep_str
  stripChars (dedent (
    lit ("\n    You are a jargon translator.\n\n    ") ++ instruct
    ++ lit ("\n\n    POLICY:\n    ") ++ policy
    ++ lit ("\n\n    ORIGINAL:\n    \"\"\"") ++ stripChars original
    ++ lit ("\"\"\"\n\n    PRECLEAN (hints only):\n    \"\"\"") ++ stripChars preclean
    ++ lit ("\"\"\"\n\n    FACTS (must be preserved per POLICY):\n    ") ++ fact_str
    ++ lit ("\n    ")))

/-- The part of a text strictly after the first occurrence of a marker
(empty if the marker does not occur). -/
def afterSub (m : List Nat) : List Nat → List Nat
  | [] => []
  | c :: cs => if listStartsWith m (c :: cs) then (c :: cs).drop m.length else afterSub m cs

/-- The part of a text strictly before the first occurrence of a marker. -/
def beforeSub (m : List Nat) : List Nat → List Nat
  | [] => []
  | c :: cs => if listStartsWith m (c :: cs) then [] else c :: beforeSub m cs

/-- The POLICY block of a rendered prompt: what stands between the labels
"POLICY:" and "ORIGINAL:". -/
def policyRegion (prompt : List Nat) : List Nat :=
  beforeSub (lit ("ORIGINAL:")) (afterSub (lit ("POLICY:")) prompt)

/-!
Predicates used to state claims C3-C6.
-/

/-- Is the value an array whose elements are all strings? -/
def isStrArr : Jval → Bool
  | .jarr xs => xs.all (fun x => match x with | .jstr _ => true | _ => false)
  | _ => false

def hasSixKeys (d : List (List Nat × Jval)) : Bool := sixKeys.all (containsKey d)

/-- The shape claim C3 asserts for every extraction result: exactly the six
keys, each holding an array of strings. -/
def claimShapeC3 (d : List (List Nat × Jval)) : Bool :=
  (d.length == 6) && hasSixKeys d && d.all (fun p => isStrArr p.2)

/-- Did the brace-sliced response parse to a JSON object (the only case in
which the `try` block of `extract_facts` completes)? -/
def parsedToObj (raw : List Nat) : Bool :=
  match jsonLoads (braceSlice raw) with
  | some (.jobj _) => true
  | _ => false

/-- A model response for C3: valid JSON wrapped in a successful HTTP body,
parsing to an object with one extra key and one non-array value. -/
def c3Body : List Nat :=
  lit ("\x7b\"response\": \"\x7b\\\"numbers\\\": 5, \\\"extra\\\": true\x7d\"\x7d")

/-- The failures on which `requests` raises a `RequestException`: the POST
itself failing, or `raise_for_status` on a 4xx/5xx code. -/
def transportFailure (h : HttpResult) : Bool :=
  match h with
  | .exn => true
  | .resp st _ => decide (400 ≤ st ∧ st < 600)

/-- A response body `call_ollama` can consume without raising: a JSON object
whose `response` field, if present, is a string. -/
def respWellFormed (body : List Nat) : Bool :=
  match jsonLoads body with
  | some (.jobj d) =>
    match aget d (lit ("response")) with
    | none => true
    | some (.jstr _) => true
    | some _ => false
  | _ => false

/-- The service behaviours under which the rewrite call cannot raise an
uncaught exception. -/
def benignOutcome (h : HttpResult) : Bool :=
  match h with
  | .exn => true
  | .resp st body => decide (400 ≤ st ∧ st < 600) || respWellFormed body

/-!
Theorems.
-/

/-- Claim C1, counterexample: on the scenario input, `buzz_sweep` does not
produce the sentence the claim describes — the word "leverages" survives,
because the pattern in the table is `\bleverage\b` and the trailing word boundary
fails before the plural "s". -/
theorem C1_counterexample :
    buzz_sweep c1Input ≠ c1Claimed ∧
    containsSub (lit ("leverages")) (buzz_sweep c1Input) = true := by
  constructor
  · decide
  · decide

/-- Claim C1 as amended: on the scenario input every mapped term is replaced
as the claim lists, except that "leverages" is left unchanged (the pattern
`\bleverage\b` does not match the plural); no pattern of the table matches
the output. -/
theorem C1_amended_thm :
    buzz_sweep c1Input = c1Actual ∧
    (BUZZMAP.all fun r => !hasMatch r.1 false c1Actual) = true := by
  constructor
  · decide
  · decide

/-- Claim C2, counterexample: the sweep is not equivalent to matching every
pattern against the original input.  On "ETL lake" the sequential sweep first
rewrites "ETL" to "extract, transform, load data", and the later `data lake`
rule then matches text introduced by that replacement — the two patterns do
not overlap at all in the original input. -/
theorem C2_counterexample :
    buzz_sweep (lit ("ETL lake")) ≠ snapshotSweep (lit ("ETL lake")) := by
  decide

/-- Claim C2 as amended: the rules are applied sequentially in table order,
each rule rewriting the output of the previous rule, and a later rule can match
text introduced by the replacement of an earlier rule even where the patterns are
disjoint on the original input; on "ETL lake" the sequential sweep and the
same-snapshot semantics produce these two different sentences. -/
theorem C2_amended_thm :
    buzz_sweep (lit ("ETL lake")) = lit ("extract, transform, load a big raw data pool") ∧
    snapshotSweep (lit ("ETL lake")) = lit ("extract, transform, load data lake") := by
  constructor
  · decide
  · decide

theorem containsKey_setdefault_self (d : List (List Nat × Jval)) (k : List Nat) (v : Jval) :
    containsKey (setdefault d k v) k = true := by
  unfold setdefault
  split
  · assumption
  · simp [containsKey, List.any_append]

theorem containsKey_setdefault_mono (d : List (List Nat × Jval)) (k k' : List Nat) (v : Jval)
    (h : containsKey d k' = true) : containsKey (setdefault d k v) k' = true := by
  unfold setdefault
  split
  · exact h
  · simp [containsKey, List.any_append]
    left
    simpa [containsKey] using h

theorem containsKey_foldl_setdefault_mono (ks : List (List Nat)) (d : List (List Nat × Jval))
    (k : List Nat) (h : containsKey d k = true) :
    containsKey (ks.foldl (fun acc k' => setdefault acc k' (.jarr [])) d) k = true := by
  induction ks generalizing d with
  | nil => exact h
  | cons k0 ks ih =>
    exact ih _ (containsKey_setdefault_mono _ _ _ _ h)

theorem containsKey_foldl_setdefault :
    ∀ (ks : List (List Nat)) (d : List (List Nat × Jval)) (k : List Nat), k ∈ ks →
    containsKey (ks.foldl (fun acc k' => setdefault acc k' (.jarr [])) d) k = true := by
  intro ks
  induction ks with
  | nil => intro d k hk; cases hk
  | cons k0 ks ih =>
    intro d k hk
    simp only [List.foldl_cons]
    rcases List.mem_cons.mp hk with rfl | hk
    · exact containsKey_foldl_setdefault_mono _ _ _ (containsKey_setdefault_self _ _ _)
    · exact ih _ _ hk

/-- Claim C3, counterexample: a model response whose parse yields an extra
field and a non-array value refutes the claimed shape — the returned record
has seven keys and `numbers` holds the number `5`, not an array of strings. -/
theorem C3_counterexample :
    claimShapeC3 (extract_facts (HttpResult.resp 200 c3Body)) = false ∧
    (extract_facts (HttpResult.resp 200 c3Body)).length = 7 ∧
    aget (extract_facts (HttpResult.resp 200 c3Body)) (lit ("numbers")) = some (.jnum 5) := by
  refine ⟨by decide, by decide, rfl⟩

/-- Claim C3 as amended: for every behaviour of the model service, the record
returned by `extract_facts` contains at least the six keys (each one that the
parsed object lacked is defaulted to an empty array); extra keys from the
parse are retained and values of keys the parse supplied keep their parsed
types. -/
theorem C3_amended_thm (h : HttpResult) : hasSixKeys (extract_facts h) = true := by
  unfold extract_facts
  split
  · decide
  · split
    · simp only [hasSixKeys, List.all_eq_true]
      intro k hk
      exact containsKey_foldl_setdefault _ _ _ hk
    · decide

theorem C3_witness : hasSixKeys (extract_facts HttpResult.exn) = true :=
  C3_amended_thm HttpResult.exn

/-- Claim C4 (confirmed): `extract_facts` never lets an exception escape.
When the model call raises (network failure or a malformed transport body),
or when the brace-delimited slice of the response fails to parse as a JSON
object, the all-empty record is returned, and since the function is total
the pipeline continues. -/
theorem C4_thm :
    (∀ (h : HttpResult) (e : PyErr), call_ollama h = .error e →
      extract_facts h = defaultFacts) ∧
    (∀ (h : HttpResult) (raw : List Nat), call_ollama h = .ok raw →
      parsedToObj raw = false → extract_facts h = defaultFacts) := by
  constructor
  · intro h e he
    unfold extract_facts
    rw [he]
  · intro h raw hok hpf
    unfold parsedToObj at hpf
    unfold extract_facts
    rw [hok]
    show (match jsonLoads (braceSlice raw) with
      | some (.jobj d) => sixKeys.foldl (fun acc k => setdefault acc k (.jarr [])) d
      | _ => defaultFacts) = defaultFacts
    split
    · rename_i d heq
      rw [heq] at hpf
      cases hpf
    · rfl

theorem C4_witness :
    extract_facts HttpResult.exn = defaultFacts ∧
    extract_facts (HttpResult.resp 200 (lit ("\x7b\"response\": \"oops\"\x7d"))) = defaultFacts := by
  exact ⟨C4_thm.1 _ PyErr.requestErr rfl, C4_thm.2 _ (lit ("oops")) rfl rfl⟩

/-- Claim C5, counterexample: a 304 response is a non-2xx status, yet
`raise_for_status` does not raise on it, so nothing is caught, no diagnostic
is emitted, and the model text — not the preclean text — is printed. -/
theorem C5_counterexample :
    rewriteStage (lit ("fallback")) (HttpResult.resp 304 (lit ("\x7b\"response\": \"model says hi\"\x7d")))
      = .ok (lit ("model says hi"), false) ∧
    lit ("model says hi") ≠ lit ("fallback") := by
  exact ⟨rfl, by decide⟩

/-- Claim C5 as amended: for every transport failure on which `requests`
raises — the POST failing (connection refused, timeout) or an HTTP status in
400-599 — the exception is caught, the diagnostic line is written, the
preclean text becomes the output, and the process exits successfully. -/
theorem C5_amended_thm (preclean : List Nat) (h : HttpResult)
    (hf : transportFailure h = true) :
    rewriteStage preclean h = .ok (preclean, true) := by
  cases h with
  | exn => rfl
  | resp st body =>
    have hc : 400 ≤ st ∧ st < 600 := by
      simpa [transportFailure] using hf
    simp [rewriteStage, call_ollama, hc]

theorem C5_witness :
    transportFailure HttpResult.exn = true ∧
    rewriteStage (lit ("p")) HttpResult.exn = .ok (lit ("p"), true) := by
  exact ⟨rfl, C5_amended_thm _ _ rfl⟩

/-- Claim C6, counterexample: a 200 response whose body is the valid JSON
object with a non-string `response` field makes `data.get("response",
"").strip()` raise an `AttributeError`, which the `except` clause (scoped to
`RequestException`) does not catch — the process aborts with a stack trace
instead of printing the preclean text. -/
theorem C6_counterexample :
    pipelineRun (lit ("hi")) (HttpResult.resp 200 (lit ("\x7b\"response\": 5\x7d")))
      = .error PyErr.otherErr := by
  rfl

/-- Claim C6 as amended: no transport-level failure is fatal — whenever the
rewrite call either raises a `RequestException` or returns a body that is a
JSON object whose `response` field (if any) is a string, the process
terminates normally and prints some output, and on the transport failures
that output is exactly the rule-based preclean text.  (A body outside that
set is fatal, as the counterexample shows.) -/
theorem C6_amended_thm (original : List Nat) (h : HttpResult)
    (hb : benignOutcome h = true) :
    ∃ out, pipelineRun original h = .ok out ∧
      (call_ollama h = .error .requestErr → out = buzz_sweep original) := by
  cases h with
  | exn =>
    refine ⟨buzz_sweep original, ?_, fun _ => rfl⟩
    unfold pipelineRun
    rfl
  | resp st body =>
    by_cases hc : 400 ≤ st ∧ st < 600
    · have hco : call_ollama (HttpResult.resp st body) = Except.error PyErr.requestErr := by
        simp only [call_ollama]
        rw [if_pos hc]
      refine ⟨buzz_sweep original, ?_, fun _ => rfl⟩
      simp [pipelineRun, rewriteStage, hco]
    · have hw : respWellFormed body = true := by
        have hb' := hb
        simp only [benignOutcome, Bool.or_eq_true, decide_eq_true_eq] at hb'
        rcases hb' with h1 | h1
        · exact absurd h1 hc
        · exact h1
      have hco : call_ollama (HttpResult.resp st body) = parseBody body := by
        simp only [call_ollama]
        rw [if_neg hc]
      have hpb : ∃ v, parseBody body = Except.ok v := by
        unfold respWellFormed at hw
        unfold parseBody
        cases hj : jsonLoads body with
        | none =>
          rw [hj] at hw
          exact Bool.noConfusion (show false = true from hw)
        | some j =>
          rw [hj] at hw
          cases j with
          | jobj d =>
            have hw' : (match aget d (lit ("response")) with
                | none => true
                | some (.jstr _) => true
                | some _ => false) = true := hw
            show ∃ v, respValue d = Except.ok v
            unfold respValue
            cases ha : aget d (lit ("response")) with
            | none => exact ⟨[], rfl⟩
            | some v =>
              rw [ha] at hw'
              cases v with
              | jstr w => exact ⟨stripChars w, rfl⟩
              | jnull => exact Bool.noConfusion (show false = true from hw')
              | jbool b => exact Bool.noConfusion (show false = true from hw')
              | jnum i => exact Bool.noConfusion (show false = true from hw')
              | jarr xs => exact Bool.noConfusion (show false = true from hw')
              | jobj d2 => exact Bool.noConfusion (show false = true from hw')
          | jnull => exact Bool.noConfusion (show false = true from hw)
          | jbool b => exact Bool.noConfusion (show false = true from hw)
          | jnum i => exact Bool.noConfusion (show false = true from hw)
          | jstr s2 => exact Bool.noConfusion (show false = true from hw)
          | jarr xs => exact Bool.noConfusion (show false = true from hw)
      rcases hpb with ⟨v, hv⟩
      refine ⟨v, ?_, ?_⟩
      · simp [pipelineRun, rewriteStage, hco, hv]
      · intro hcontra
        rw [hco, hv] at hcontra
        exact Except.noConfusion hcontra

theorem C6_witness :
    ∃ out, pipelineRun (lit ("x")) HttpResult.exn = .ok out ∧
      (call_ollama HttpResult.exn = .error .requestErr → out = buzz_sweep (lit ("x"))) := by
  exact C6_amended_thm _ _ rfl

theorem lowerN_congr_word (a b : Nat) (h : lowerN a = lowerN b) :
    isWordN a = isWordN b := by
  unfold isWordN
  refine decide_eq_decide.mpr ?_
  unfold lowerN at h
  split_ifs at h <;> omega

theorem lowerN_congr_space (a b : Nat) (h : lowerN a = lowerN b) :
    isSpaceN a = isSpaceN b := by
  unfold isSpaceN
  refine decide_eq_decide.mpr ?_
  unfold lowerN at h
  split_ifs at h <;> omega

theorem matchLitCI_congr : ∀ (alt s s' : List Nat), s.map lowerN = s'.map lowerN →
    (matchLitCI alt s).map (List.map lowerN) = (matchLitCI alt s').map (List.map lowerN) := by
  intro alt
  induction alt with
  | nil =>
    intro s s' h
    simp only [matchLitCI, Option.map_some', Option.some.injEq]
    exact h
  | cons a as ih =>
    intro s s' h
    cases s with
    | nil =>
      cases s' with
      | nil => rfl
      | cons c' cs' => simp at h
    | cons c cs =>
      cases s' with
      | nil => simp at h
      | cons c' cs' =>
        simp only [List.map_cons, List.cons.injEq] at h
        obtain ⟨h1, h2⟩ := h
        simp only [matchLitCI]
        rw [h1]
        split_ifs
        · exact ih cs cs' h2
        · rfl

theorem nonWordStart_congr (s s' : List Nat) (h : s.map lowerN = s'.map lowerN) :
    nonWordStart s = nonWordStart s' := by
  cases s with
  | nil =>
    cases s' with
    | nil => rfl
    | cons c' cs' => simp at h
  | cons c cs =>
    cases s' with
    | nil => simp at h
    | cons c' cs' =>
      simp only [List.map_cons, List.cons.injEq] at h
      simp only [nonWordStart]
      rw [lowerN_congr_word _ _ h.1]

theorem tryAlts_congr : ∀ (alts : List (List Nat)) (s s' : List Nat),
    s.map lowerN = s'.map lowerN →
    (tryAlts alts s).map (List.map lowerN) = (tryAlts alts s').map (List.map lowerN) := by
  intro alts
  induction alts with
  | nil => intro s s' h; rfl
  | cons a rest ih =>
    intro s s' h
    have hm := matchLitCI_congr a s s' h
    simp only [tryAlts]
    cases hml : matchLitCI a s with
    | none =>
      cases hml' : matchLitCI a s' with
      | none => exact ih s s' h
      | some r' =>
        rw [hml, hml'] at hm
        simp at hm
    | some r =>
      cases hml' : matchLitCI a s' with
      | none =>
        rw [hml, hml'] at hm
        simp at hm
      | some r' =>
        rw [hml, hml'] at hm
        simp only [Option.map_some', Option.some.injEq] at hm
        show (if nonWordStart r then some r else tryAlts rest s).map (List.map lowerN)
           = (if nonWordStart r' then some r' else tryAlts rest s').map (List.map lowerN)
        rw [nonWordStart_congr r r' hm]
        split_ifs
        · simp only [Option.map_some', Option.some.injEq]
          exact hm
        · exact ih s s' h

theorem subLoopF_congr (alts : List (List Nat)) (repl : List Nat) :
    ∀ (fuel : Nat) (prev : Bool) (s s' : List Nat), s.map lowerN = s'.map lowerN →
    (subLoopF alts repl fuel prev s).map lowerN = (subLoopF alts repl fuel prev s').map lowerN := by
  intro fuel
  induction fuel with
  | zero =>
    intro prev s s' h
    simpa [subLoopF] using h
  | succ f ih =>
    intro prev s s' h
    cases s with
    | nil =>
      cases s' with
      | nil => rfl
      | cons c' cs' => simp at h
    | cons c cs =>
      cases s' with
      | nil => simp at h
      | cons c' cs' =>
        simp only [List.map_cons, List.cons.injEq] at h
        obtain ⟨h1, h2⟩ := h
        cases prev with
        | true =>
          simp only [subLoopF, List.map_cons, List.cons.injEq]
          refine ⟨h1, ?_⟩
          rw [lowerN_congr_word _ _ h1]
          exact ih _ cs cs' h2
        | false =>
          have ht := tryAlts_congr alts (c :: cs) (c' :: cs') (by simp [h1, h2])
          simp only [subLoopF]
          cases htl : tryAlts alts (c :: cs) with
          | none =>
            cases htl' : tryAlts alts (c' :: cs') with
            | none =>
              show (c :: subLoopF alts repl f (isWordN c) cs).map lowerN
                 = (c' :: subLoopF alts repl f (isWordN c') cs').map lowerN
              simp only [List.map_cons, List.cons.injEq]
              refine ⟨h1, ?_⟩
              rw [lowerN_congr_word _ _ h1]
              exact ih _ cs cs' h2
            | some r' =>
              rw [htl, htl'] at ht
              simp at ht
          | some r =>
            cases htl' : tryAlts alts (c' :: cs') with
            | none =>
              rw [htl, htl'] at ht
              simp at ht
            | some r' =>
              rw [htl, htl'] at ht
              simp only [Option.map_some', Option.some.injEq] at ht
              show (repl ++ subLoopF alts repl f true r).map lowerN
                 = (repl ++ subLoopF alts repl f true r').map lowerN
              simp only [List.map_append]
              rw [ih true r r' ht]

theorem applyRule_congr (r : List (List Nat) × List Nat) (s s' : List Nat)
    (h : s.map lowerN = s'.map lowerN) :
    (applyRule s r).map lowerN = (applyRule s' r).map lowerN := by
  have hlen : s.length = s'.length := by
    simpa using congrArg List.length h
  unfold applyRule
  rw [hlen]
  exact subLoopF_congr _ _ _ _ _ _ h

theorem foldl_applyRule_congr : ∀ (rules : List (List (List Nat) × List Nat)) (s s' : List Nat),
    s.map lowerN = s'.map lowerN →
    (rules.foldl applyRule s).map lowerN = (rules.foldl applyRule s').map lowerN := by
  intro rules
  induction rules with
  | nil => intro s s' h; exact h
  | cons r rest ih =>
    intro s s' h
    simp only [List.foldl_cons]
    exact ih _ _ (applyRule_congr r s s' h)

theorem dropWhile_space_congr : ∀ (s s' : List Nat), s.map lowerN = s'.map lowerN →
    (s.dropWhile isSpaceN).map lowerN = (s'.dropWhile isSpaceN).map lowerN := by
  intro s
  induction s with
  | nil =>
    intro s' h
    cases s' with
    | nil => rfl
    | cons c' cs' => simp at h
  | cons c cs ih =>
    intro s' h
    cases s' with
    | nil => simp at h
    | cons c' cs' =>
      simp only [List.map_cons, List.cons.injEq] at h
      obtain ⟨h1, h2⟩ := h
      simp only [List.dropWhile]
      rw [lowerN_congr_space _ _ h1]
      cases hsp : isSpaceN c' with
      | true => exact ih cs' h2
      | false =>
        simp only [List.map_cons, List.cons.injEq]
        exact ⟨h1, h2⟩

theorem collapseF_congr : ∀ (fuel : Nat) (s s' : List Nat), s.map lowerN = s'.map lowerN →
    (collapseF fuel s).map lowerN = (collapseF fuel s').map lowerN := by
  intro fuel
  induction fuel with
  | zero =>
    intro s s' h
    simpa [collapseF] using h
  | succ f ih =>
    intro s s' h
    cases s with
    | nil =>
      cases s' with
      | nil => rfl
      | cons c' cs' => simp at h
    | cons c cs =>
      cases s' with
      | nil => simp at h
      | cons c' cs' =>
        simp only [List.map_cons, List.cons.injEq] at h
        obtain ⟨h1, h2⟩ := h
        cases cs with
        | nil =>
          cases cs' with
          | nil => simpa [collapseF] using h1
          | cons d' ds' => simp at h2
        | cons d ds =>
          cases cs' with
          | nil => simp at h2
          | cons d' ds' =>
            simp only [List.map_cons, List.cons.injEq] at h2
            obtain ⟨hd, hds⟩ := h2
            simp only [collapseF]
            rw [lowerN_congr_space _ _ h1, lowerN_congr_space _ _ hd]
            split_ifs
            · simp only [List.map_cons, List.cons.injEq]
              exact ⟨trivial, ih _ _ (dropWhile_space_congr ds ds' hds)⟩
            · simp only [List.map_cons, List.cons.injEq]
              refine ⟨h1, ?_⟩
              exact ih _ _ (by simp [hd, hds])

theorem collapseWS_congr (s s' : List Nat) (h : s.map lowerN = s'.map lowerN) :
    (collapseWS s).map lowerN = (collapseWS s').map lowerN := by
  have hlen : s.length = s'.length := by
    simpa using congrArg List.length h
  unfold collapseWS
  rw [hlen]
  exact collapseF_congr _ _ _ h

theorem stripChars_congr (s s' : List Nat) (h : s.map lowerN = s'.map lowerN) :
    (stripChars s).map lowerN = (stripChars s').map lowerN := by
  unfold stripChars
  have h1 := dropWhile_space_congr s s' h
  have h2 : (s.dropWhile isSpaceN).reverse.map lowerN
      = (s'.dropWhile isSpaceN).reverse.map lowerN := by
    rw [List.map_reverse, List.map_reverse, h1]
  have h3 := dropWhile_space_congr _ _ h2
  rw [List.map_reverse, List.map_reverse, h3]

/-- Claim C7 (confirmed): sweeping is case-insensitive.  Two inputs that
agree up to letter case are swept identically up to the case of the
characters the sweep copies verbatim (the replacements themselves are fixed
strings), and in particular "LATENCY", "Latency" and "latency" in the same
position all produce the same replacement "delay". -/
theorem C7_thm :
    (∀ s s' : List Nat, s.map lowerN = s'.map lowerN →
      (buzz_sweep s).map lowerN = (buzz_sweep s').map lowerN) ∧
    buzz_sweep (lit ("The LATENCY is bad.")) = lit ("The delay is bad.") ∧
    buzz_sweep (lit ("The Latency is bad.")) = lit ("The delay is bad.") ∧
    buzz_sweep (lit ("The latency is bad.")) = lit ("The delay is bad.") := by
  refine ⟨?_, by decide, by decide, by decide⟩
  intro s s' h
  unfold buzz_sweep
  exact stripChars_congr _ _ (collapseWS_congr _ _ (foldl_applyRule_congr BUZZMAP s s' h))

theorem C7_witness :
    (buzz_sweep (lit ("zero LATENCY"))).map lowerN
      = (buzz_sweep (lit ("zero latency"))).map lowerN :=
  C7_thm.1 _ _ (by decide)

theorem subLoopF_id_of_noMatch (alts : List (List Nat)) (repl : List Nat) :
    ∀ (fuel : Nat) (prev : Bool) (s : List Nat), hasMatch alts prev s = false →
    subLoopF alts repl fuel prev s = s := by
  intro fuel
  induction fuel with
  | zero => intro prev s h; rfl
  | succ f ih =>
    intro prev s h
    cases s with
    | nil => cases prev <;> rfl
    | cons c cs =>
      cases prev with
      | true =>
        simp only [hasMatch] at h
        simp only [subLoopF]
        rw [ih _ _ h]
      | false =>
        simp only [hasMatch] at h
        simp only [subLoopF]
        cases htl : tryAlts alts (c :: cs) with
        | some r =>
          rw [htl] at h
          exact Bool.noConfusion (show true = false from h)
        | none =>
          rw [htl] at h
          have h' : hasMatch alts (isWordN c) cs = false := h
          show c :: subLoopF alts repl f (isWordN c) cs = c :: cs
          rw [ih _ _ h']

theorem foldl_applyRule_id : ∀ (rules : List (List (List Nat) × List Nat)) (t : List Nat),
    (∀ r ∈ rules, hasMatch r.1 false t = false) → rules.foldl applyRule t = t := by
  intro rules
  induction rules with
  | nil => intro t h; rfl
  | cons r rest ih =>
    intro t h
    simp only [List.foldl_cons]
    have hr : applyRule t r = t :=
      subLoopF_id_of_noMatch r.1 r.2 t.length false t (h r (by simp))
    rw [hr]
    exact ih t (fun r' hr' => h r' (by simp [hr']))

/-- Claim C8 (confirmed): when no pattern of the table matches anywhere in
the input, `buzz_sweep` returns exactly the whitespace-normalized input —
the same text with every run of two or more whitespace characters collapsed
to a single space (`collapseWS`) and leading/trailing whitespace trimmed
(`stripChars`). -/
theorem C8_thm (t : List Nat)
    (h : (BUZZMAP.all fun r => !hasMatch r.1 false t) = true) :
    buzz_sweep t = stripChars (collapseWS t) := by
  have h' : ∀ r ∈ BUZZMAP, hasMatch r.1 false t = false := by
    intro r hr
    simpa using List.all_eq_true.mp h r hr
  unfold buzz_sweep
  rw [foldl_applyRule_id BUZZMAP t h']

theorem C8_witness :
    (BUZZMAP.all fun r => !hasMatch r.1 false (lit ("hello world"))) = true ∧
    buzz_sweep (lit ("hello world")) = stripChars (collapseWS (lit ("hello world"))) :=
  ⟨by decide, C8_thm _ (by decide)⟩

theorem containsSub_nil : ∀ (t : List Nat), containsSub [] t = true := by
  intro t
  cases t with
  | nil => rfl
  | cons c cs => simp [containsSub, listStartsWith]

theorem listStartsWith_append_self : ∀ (sub t : List Nat),
    listStartsWith sub (sub ++ t) = true := by
  intro sub
  induction sub with
  | nil => intro t; rfl
  | cons a as ih =>
    intro t
    simp only [List.cons_append, listStartsWith, beq_self_eq_true, Bool.true_and]
    exact ih t

theorem containsSub_append_self : ∀ (sub post : List Nat),
    containsSub sub (sub ++ post) = true := by
  intro sub post
  cases sub with
  | nil => exact containsSub_nil post
  | cons a as =>
    show containsSub (a :: as) (a :: (as ++ post)) = true
    simp only [containsSub]
    have h : listStartsWith (a :: as) ((a :: as) ++ post) = true :=
      listStartsWith_append_self _ _
    simp only [List.cons_append] at h
    rw [h]
    simp

theorem containsSub_of_mid : ∀ (pre sub post : List Nat),
    containsSub sub (pre ++ sub ++ post) = true := by
  intro pre sub post
  induction pre with
  | nil => simpa using containsSub_append_self sub post
  | cons p ps ih =>
    show containsSub sub (p :: (ps ++ sub ++ post)) = true
    cases sub with
    | nil => exact containsSub_nil _
    | cons a as =>
      simp only [containsSub]
      rw [ih]
      simp

/-- Claim C9 (confirmed): with the keep list parsed from "MQTT,HIPAA", the
keep-terms line of the policy block contains the literal "MQTT, HIPAA" for
every fidelity mode and every word budget; and in the fully rendered
exec-style prompt (built as `main` builds it, before any model call) the
text between the "POLICY:" and "ORIGINAL:" labels contains that literal, in
both fidelity modes. -/
theorem C9_thm :
    (∀ (mode : Mode) (maxlen : Nat),
      containsSub (lit ("MQTT, HIPAA"))
        (policyStr mode maxlen (keepStr (parseKeep (lit ("MQTT,HIPAA"))))) = true) ∧
    containsSub (lit ("MQTT, HIPAA"))
      (policyRegion (build_prompt .exec (lit ("Telemetry uses MQTT under HIPAA."))
        (buzz_sweep (lit ("Telemetry uses MQTT under HIPAA.")))
        defaultFacts 120 (parseKeep (lit ("MQTT,HIPAA"))) .faithful)) = true ∧
    containsSub (lit ("MQTT, HIPAA"))
      (policyRegion (build_prompt .exec (lit ("Telemetry uses MQTT under HIPAA."))
        (buzz_sweep (lit ("Telemetry uses MQTT under HIPAA.")))
        defaultFacts 120 (parseKeep (lit ("MQTT,HIPAA"))) .summary)) = true := by
  refine ⟨?_, by decide, by decide⟩
  intro mode maxlen
  have hk : keepStr (parseKeep (lit ("MQTT,HIPAA"))) = lit ("MQTT, HIPAA") := by decide
  rw [hk]
  cases mode with
  | faithful => exact containsSub_of_mid _ _ _
  | summary => exact containsSub_of_mid _ _ _

theorem C9_witness :
    containsSub (lit ("MQTT, HIPAA"))
      (policyStr Mode.faithful 120 (keepStr (parseKeep (lit ("MQTT,HIPAA"))))) = true :=
  C9_thm.1 Mode.faithful 120

theorem dropWhile_space_head : ∀ (l : List Nat),
    l.dropWhile isSpaceN = [] ∨
    ∃ c cs, l.dropWhile isSpaceN = c :: cs ∧ isSpaceN c = false := by
  intro l
  induction l with
  | nil => left; rfl
  | cons c cs ih =>
    by_cases hc : isSpaceN c = true
    · simpa [List.dropWhile, hc] using ih
    · right
      exact ⟨c, cs, by simp [List.dropWhile, hc], by simpa using hc⟩

theorem dropWhile_space_suffix : ∀ (l : List Nat),
    ∃ pre, pre ++ l.dropWhile isSpaceN = l := by
  intro l
  induction l with
  | nil => exact ⟨[], rfl⟩
  | cons c cs ih =>
    by_cases hc : isSpaceN c = true
    · obtain ⟨pre, hpre⟩ := ih
      refine ⟨c :: pre, ?_⟩
      simp [List.dropWhile, hc, hpre]
    · refine ⟨[], ?_⟩
      simp [List.dropWhile, hc]

theorem dropWhile_not_space_head (c : Nat) (cs : List Nat) (hc : isSpaceN c = false) :
    (c :: cs).dropWhile isSpaceN = c :: cs := by
  simp [List.dropWhile, hc]

theorem stripChars_idem (l : List Nat) : stripChars (stripChars l) = stripChars l := by
  rcases dropWhile_space_head l with hu | ⟨c, cs, hu, hc⟩
  · have hl : stripChars l = [] := by
      unfold stripChars
      rw [hu]
      rfl
    rw [hl]
    rfl
  · rcases dropWhile_space_head (l.dropWhile isSpaceN).reverse with hv | ⟨c2, cs2, hv, hc2⟩
    · have hl : stripChars l = [] := by
        unfold stripChars
        rw [hv]
        rfl
      rw [hl]
      rfl
    · have hl : stripChars l = (c2 :: cs2).reverse := by
        unfold stripChars
        rw [hv]
      obtain ⟨pre, hpre⟩ := dropWhile_space_suffix (l.dropWhile isSpaceN).reverse
      rw [hv] at hpre
      have hm : (c2 :: cs2).reverse ++ pre.reverse = c :: cs := by
        have := congrArg List.reverse hpre
        simpa [hu] using this
      rw [hl]
      cases hm2 : (c2 :: cs2).reverse with
      | nil =>
        have := congrArg List.length hm2
        simp at this
      | cons mh mt =>
        rw [hm2] at hm
        have hmh : mh = c := by
          simpa using congrArg (fun x => x.headI) hm
        unfold stripChars
        rw [dropWhile_not_space_head mh mt (hmh ▸ hc)]
        have hrev : (mh :: mt).reverse = c2 :: cs2 := by
          rw [← hm2, List.reverse_reverse]
        rw [hrev]
        rw [dropWhile_not_space_head c2 cs2 hc2]
        exact hm2

/-- Claim C10 (confirmed): parsing the keep option splits on commas, strips
each entry and drops the entries that are empty after stripping, so
" MQTT , , HIPAA " and "MQTT,HIPAA" give the same list; the empty option
yields the empty list, for which the keep-terms value rendered into the
prompt is "none"; and every parsed entry is nonempty and already stripped
(stripping it again changes nothing). -/
theorem C10_thm :
    parseKeep (lit (" MQTT , , HIPAA ")) = parseKeep (lit ("MQTT,HIPAA")) ∧
    parseKeep (lit ("")) = [] ∧
    keepStr (parseKeep (lit (""))) = lit ("none") ∧
    ∀ (opt t : List Nat), t ∈ parseKeep opt → t ≠ [] ∧ stripChars t = t := by
  refine ⟨by decide, by decide, by decide, ?_⟩
  intro opt t ht
  unfold parseKeep at ht
  rw [List.mem_filter] at ht
  obtain ⟨hmem, hne⟩ := ht
  rw [List.mem_map] at hmem
  obtain ⟨u, hu, rfl⟩ := hmem
  refine ⟨?_, stripChars_idem u⟩
  intro hnil
  rw [hnil] at hne
  simp at hne

theorem C10_witness :
    lit ("MQTT") ∈ parseKeep (lit (" MQTT , , HIPAA ")) ∧
    lit ("MQTT") ≠ [] ∧ stripChars (lit ("MQTT")) = lit ("MQTT") := by
  refine ⟨by decide, ?_⟩
  exact C10_thm.2.2.2 (lit (" MQTT , , HIPAA ")) _ (by decide)
